import Mathlib

/-!
Verification development for the pdf-viewer-app repository.

The server side of the repository consists of an object-store access layer
(`src/service/s3.ts`: `listPDFFiles`, `getS3FileStream`, `parseS3ListResponse`,
`listPDFFilesSimple`) and an HTTP layer (`src/index.tsx`: the `/api/file/list`
and `/api/file/get` handlers).  This file is a shallow embedding of those
functions and proofs about them.

Modelling conventions:
- JavaScript strings are Lean `String`s; all character-level work is done on
  `String.data : List Char`.
- JavaScript `Date` values are modelled by their `getTime()` value, a natural
  number of milliseconds; the textual form of a timestamp is modelled as the
  decimal numeral of that number.
- The AWS SDK response shapes keep their optional fields (`Key`,
  `LastModified`, `Size`, `ETag` are all optional in the SDK's types).
- Fallible operations return `Except`; a thrown JS exception is the `error`
  case, carrying the message of the `Error` the source re-throws.
-/

/-- Lower-cases one character the way `String.prototype.toLowerCase` does on
the ASCII range (all characters appearing in the claims are ASCII). -/
def lowerChar (c : Char) : Char :=
  if 'A' ≤ c ∧ c ≤ 'Z' then Char.ofNat (c.toNat + 32) else c

/-- Model of `s.toLowerCase()`. -/
def jsToLower (s : String) : String :=
  ⟨s.data.map lowerChar⟩

/-- Model of `s.endsWith(suffix)`. -/
def jsEndsWith (s suf : String) : Bool :=
  suf.data.isSuffixOf s.data

/-- Model of `s.startsWith(p)` (used to model the store's server-side
prefix restriction on listed keys). -/
def jsStartsWith (s p : String) : Bool :=
  p.data.isPrefixOf s.data

/-- Model of `s.split(sep)` for a one-character separator: the resulting
pieces, in order.  Like the JS original it never returns an empty list. -/
def splitOnChar (sep : Char) : List Char → List (List Char)
  | [] => [[]]
  | c :: cs =>
    if c = sep then [] :: splitOnChar sep cs
    else match splitOnChar sep cs with
      | [] => [[c]]
      | p :: ps => (c :: p) :: ps

/-- Model of `key.split('/').pop()`: the last `/`-delimited segment. -/
def lastSegment (key : String) : String :=
  ⟨(splitOnChar '/' key.data).getLastD []⟩

/-- Model of `s.replace(/"/g, '')`: removes every double-quote character. -/
def removeQuotes (s : String) : String :=
  ⟨s.data.filter (fun c => c != '"')⟩

/-- Fuel-bounded digit production; the fuel is only a structural-recursion
bound and is never exhausted when it exceeds the number (see
`decimalDigitsAux_irrel`). -/
def decimalDigitsAux : Nat → Nat → List Char
  | 0, _ => []
  | fuel + 1, n =>
    if n < 10 then [Char.ofNat (48 + n)]
    else decimalDigitsAux fuel (n / 10) ++ [Char.ofNat (48 + n % 10)]

/-- Decimal numeral of a natural number; models `Number.prototype.toString`
on the values at hand (sizes and, in this model, timestamps). -/
def decimalDigits (n : Nat) : List Char :=
  decimalDigitsAux (n + 1) n

/-- String form of `decimalDigits`. -/
def decimalString (n : Nat) : String :=
  ⟨decimalDigits n⟩

/-- Reads a decimal numeral; models `parseInt(s, 10)` on all-digit input and,
in this model, the timestamp parse `new Date(s).getTime()`. -/
def natOfDigits (cs : List Char) : Nat :=
  cs.foldl (fun n c => n * 10 + (c.toNat - 48)) 0

/-- One entry of the store's list response, with the AWS SDK's optional
fields (`ListObjectsV2` output `Contents` entry). -/
structure S3Object where
  Key : Option String
  LastModified : Option Nat
  Size : Option Nat
  ETag : Option String
deriving DecidableEq

/-- The `S3File` interface of `src/service/s3.ts`. -/
structure S3File where
  key : String
  lastModified : Nat
  size : Nat
  etag : String
deriving DecidableEq

/-- The filter `obj => obj.Key && obj.Key.toLowerCase().endsWith('.pdf')` of
`listPDFFiles` (an empty-string key is falsy in JS and is rejected). -/
def pdfKeyTest (o : S3Object) : Bool :=
  match o.Key with
  | none => false
  | some k => (k != "") && jsEndsWith (jsToLower k) ".pdf"

/-- The per-entry normalisation of `listPDFFiles`:
`key: obj.Key!` (the filter guarantees a key),
`lastModified: obj.LastModified || new Date()` (a `Date` object is always
truthy, so this is a default for the missing case, `now` being the current
time), `size: obj.Size || 0`, and
`etag: obj.ETag?.replace(/"/g, '') || ''`. -/
def toS3File (now : Nat) (o : S3Object) : S3File :=
  { key := o.Key.getD ""
    lastModified := o.LastModified.getD now
    size := o.Size.getD 0
    etag := (o.ETag.map removeQuotes).getD "" }

/-- The sort order of `files.sort((a, b) => b.lastModified.getTime() -
a.lastModified.getTime())`: most recent first. -/
def newerLE (a b : S3File) : Prop :=
  b.lastModified ≤ a.lastModified

instance : DecidableRel newerLE :=
  fun a b => Nat.decLe b.lastModified a.lastModified

/-- JS `Array.prototype.sort` is a stable sort; with the comparator above the
result is the unique stable non-increasing reordering by `lastModified`,
which an insertion sort by `newerLE` computes. -/
def sortByNewest (fs : List S3File) : List S3File :=
  List.insertionSort newerLE fs

/-- The filter/map/sort pipeline of `listPDFFiles`, applied to the
`Contents` array of the store's response. -/
def listPDFFilesCore (contents : List S3Object) (now : Nat) : List S3File :=
  sortByNewest ((contents.filter pdfKeyTest).map (toS3File now))

/-- The store's server-side restriction of the listing to keys starting with
the requested prefix string.  `listPDFFiles` sends
`Prefix: prefix || undefined`; an absent prefix restricts nothing, which
coincides with filtering by the empty string. -/
def s3ListUnder (store : List S3Object) (pfx : String) : List S3Object :=
  store.filter (fun o => jsStartsWith (o.Key.getD "") pfx)

/-- The `ListObjectsV2` response shape consumed by `listPDFFiles`: the
`Contents` field is absent when no key matches. -/
structure ListObjectsResponse where
  Contents : Option (List S3Object)
deriving DecidableEq

/-- The store's answer to the `ListObjectsV2Command` of `listPDFFiles`:
S3 omits `Contents` entirely when the listing is empty. -/
def s3ListObjects (store : List S3Object) (pfx : String) : ListObjectsResponse :=
  let sel := s3ListUnder store pfx
  { Contents := if sel.isEmpty then none else some sel }

/-- `listPDFFiles(bucketName, prefix)` against a modelled store state: sends
the list command, returns `[]` when `response.Contents` is absent, otherwise
filters to PDF keys, normalises, and sorts most-recent-first. -/
def listPDFFiles (store : List S3Object) (pfx : String) (now : Nat) : List S3File :=
  match (s3ListObjects store pfx).Contents with
  | none => []
  | some cs => listPDFFilesCore cs now

/-- `listPDFFiles` at the raw-response boundary, with its `try`/`catch`: a
throwing store call is re-thrown as `Error("Failed to list files from S3")`;
an absent `Contents` yields `[]`. -/
def listPDFFilesE (resp : Except Unit ListObjectsResponse) (now : Nat) :
    Except String (List S3File) :=
  match resp with
  | .error _ => .error "Failed to list files from S3"
  | .ok r =>
    match r.Contents with
    | none => .ok []
    | some cs => .ok (listPDFFilesCore cs now)

/-- The `GetObjectCommand` response shape consumed by `getS3FileStream`:
an optional body stream and an optional `ContentLength`. -/
structure GetObjectResponse where
  Body : Option Unit
  ContentLength : Option Nat
deriving DecidableEq

/-- The streaming store is modelled as an association list from keys to the
content length the store reports for the object (`none` when it reports
none).  `GetObject` on a missing key throws (`NoSuchKey`), modelled as the
`error` case; on a present key the store returns a body stream. -/
def s3GetObject (store : List (String × Option Nat)) (key : String) :
    Except Unit GetObjectResponse :=
  match List.lookup key store with
  | none => .error ()
  | some len => .ok { Body := some (), ContentLength := len }

/-- Body of an HTTP response of the server, as far as the claims observe it:
a JSON error object `Response.json({error: msg}, {status})`, the JSON list
payload, or a proxied byte stream. -/
inductive RespBody where
  | jsonError (msg : String)
  | jsonFiles (files : List S3File) (count : Nat)
  | stream
deriving DecidableEq

/-- An HTTP response: status, header list in the order the source writes the
header record, and body. -/
structure HttpResponse where
  status : Nat
  headers : List (String × String)
  body : RespBody
deriving DecidableEq

/-- `getS3FileStream(bucketName, key)`: fetches the object, throws when the
store throws or when the response has no body (both are caught and re-thrown
as `Error("Failed to stream file from S3")`), and on success wraps the body
stream in a 200 response with exactly the four headers written in the source;
`Content-Length` is `response.ContentLength?.toString() || ''`. -/
def getS3FileStream (store : List (String × Option Nat)) (key : String) :
    Except String HttpResponse :=
  match s3GetObject store key with
  | .error _ => .error "Failed to stream file from S3"
  | .ok resp =>
    match resp.Body with
    | none => .error "Failed to stream file from S3"
    | some _ =>
      .ok { status := 200
            headers :=
              [("Content-Type", "application/pdf"),
               ("Content-Disposition",
                 "inline; filename=\"" ++ lastSegment key ++ "\""),
               ("Cache-Control", "public, max-age=3600"),
               ("Content-Length", (resp.ContentLength.map decimalString).getD "")]
            body := .stream }

/-- JS truthiness test of `url.searchParams.get('key')`: `null` (parameter
absent) and the empty string are both falsy. -/
def jsFalsyStr : Option String → Bool
  | none => true
  | some s => s == ""

/-- The `/api/file/get` GET handler.  The second component records whether
the store was contacted while answering the request. -/
def apiFileGet (store : List (String × Option Nat)) (keyParam : Option String) :
    HttpResponse × Bool :=
  if jsFalsyStr keyParam then
    ({ status := 400, headers := [], body := .jsonError "File key is required" }, false)
  else
    match getS3FileStream store (keyParam.getD "") with
    | .ok r => (r, true)
    | .error _ =>
      ({ status := 500, headers := [], body := .jsonError "Failed to get PDF file" }, true)

/-- Headers of a successful stream response, `[]` on failure (used only to
state concrete facts about results of `getS3FileStream`). -/
def respHeaders : Except String HttpResponse → List (String × String)
  | .ok r => r.headers
  | .error _ => []

/-- Claim C6: a GET request to `/api/file/get` whose query string has no
`key` parameter is answered with status 400 and body
`Response.json({error: "File key is required"}, {status: 400})`, and the
store is not contacted for that request. -/
theorem c6_missing_key_param_400_no_store_call
    (store : List (String × Option Nat)) :
    apiFileGet store none =
      ({ status := 400, headers := [], body := .jsonError "File key is required" },
       false) :=
  rfl

/-- Claim C9: a GET request to `/api/file/get` whose `key` parameter is
present but equal to the empty string takes the same falsy-key branch as a
missing parameter: 400 with the same error body, store not contacted. -/
theorem c9_empty_key_param_400_no_store_call
    (store : List (String × Option Nat)) :
    apiFileGet store (some "") =
      ({ status := 400, headers := [], body := .jsonError "File key is required" },
       false) :=
  rfl

/-- The two-object store of the C7 scenario: `reports/q1.pdf` of size 2048
last modified 2024-01-01T00:00:00Z (epoch milliseconds 1704067200000), and
`reports/q1.txt`. -/
def c7Store : List S3Object :=
  [{ Key := some "reports/q1.pdf", LastModified := some 1704067200000,
     Size := some 2048, ETag := some "\"abc\"" },
   { Key := some "reports/q1.txt", LastModified := some 1704067200000,
     Size := some 512, ETag := some "\"def\"" }]

/-- Claim C7: on the two-object store above, `listPDFFiles(bucket,
"reports/")` returns exactly one entry, with key `reports/q1.pdf` and size
2048 (the matching PDF is included, the `.txt` object excluded). -/
theorem c7_reports_scenario_exactly_one_pdf (now : Nat) :
    listPDFFiles c7Store "reports/" now =
      [{ key := "reports/q1.pdf", lastModified := 1704067200000,
         size := 2048, etag := "abc" }] :=
  rfl

/-- Claim C10: a list response carrying no `Contents` field yields a
successful empty listing, every non-throwing store response yields a
successful listing, and only a throwing store call makes `listPDFFiles`
fail (with the re-thrown message). -/
theorem c10_absent_contents_is_empty_success (now : Nat) :
    listPDFFilesE (Except.ok { Contents := none }) now = Except.ok [] ∧
    (∀ r : ListObjectsResponse, ∃ fs, listPDFFilesE (Except.ok r) now = Except.ok fs) ∧
    (∀ e : Unit, listPDFFilesE (Except.error e) now =
      Except.error "Failed to list files from S3") := by
  refine ⟨rfl, fun r => ?_, fun e => rfl⟩
  match r with
  | { Contents := none } => exact ⟨[], rfl⟩
  | { Contents := some cs } => exact ⟨listPDFFilesCore cs now, rfl⟩

/-- Claim C2, counterexample: for an object whose store response carries no
`ContentLength`, the success response of `getS3FileStream` still carries a
`Content-Length` header (with the empty string as value, from
`response.ContentLength?.toString() || ''`), so the header is not present
only when the store reported a length. -/
theorem c2_counterexample_content_length_always_present :
    List.lookup "a.pdf" [("a.pdf", (none : Option Nat))] = some none ∧
    (respHeaders (getS3FileStream [("a.pdf", (none : Option Nat))] "a.pdf")).any
      (fun h => h.1 == "Content-Length") = true ∧
    respHeaders (getS3FileStream [("a.pdf", (none : Option Nat))] "a.pdf") =
      [("Content-Type", "application/pdf"),
       ("Content-Disposition", "inline; filename=\"a.pdf\""),
       ("Cache-Control", "public, max-age=3600"),
       ("Content-Length", "")] := by
  decide

/-- Claim C2 as amended: on success, `getS3FileStream` returns a 200 response
whose headers are exactly `Content-Type: application/pdf`,
`Content-Disposition: inline; filename="<last '/'-segment of the key>"`,
`Cache-Control: public, max-age=3600`, and a `Content-Length` header that is
always present — its value the store's reported content length in decimal
when one was reported and the empty string otherwise. -/
theorem c2_amended_success_headers
    (store : List (String × Option Nat)) (key : String) (len : Option Nat)
    (h : List.lookup key store = some len) :
    getS3FileStream store key =
      Except.ok
        { status := 200
          headers :=
            [("Content-Type", "application/pdf"),
             ("Content-Disposition",
               "inline; filename=\"" ++ lastSegment key ++ "\""),
             ("Cache-Control", "public, max-age=3600"),
             ("Content-Length", (len.map decimalString).getD "")]
          body := .stream } := by
  simp [getS3FileStream, s3GetObject, h]

/-- Witness for the amended C2 at a concrete store and key. -/
theorem c2_amended_success_headers_witness :
    getS3FileStream [("docs/a/b.pdf", some 7)] "docs/a/b.pdf" =
      Except.ok
        { status := 200
          headers :=
            [("Content-Type", "application/pdf"),
             ("Content-Disposition", "inline; filename=\"b.pdf\""),
             ("Cache-Control", "public, max-age=3600"),
             ("Content-Length", "7")]
          body := .stream } := by
  rw [c2_amended_success_headers [("docs/a/b.pdf", some 7)] "docs/a/b.pdf" (some 7)
    (by decide)]
  exact congrArg Except.ok (by decide)

/-- Claim C5, counterexample: the empty string is a key not present in the
empty store, yet a GET request carrying `key=` (empty value) is answered
400, not 500 — the falsy-key check fires before the store path. -/
theorem c5_counterexample_empty_key_is_400 :
    List.lookup "" ([] : List (String × Option Nat)) = none ∧
    (apiFileGet [] (some "")).1.status = 400 ∧
    (apiFileGet [] (some "")).1 ≠
      { status := 500, headers := [], body := .jsonError "Failed to get PDF file" } := by
  decide

/-- Claim C5 as amended: for every non-empty key not present in the store,
`getS3FileStream` fails with the re-thrown store error and the handler
responds 500 with `{error: "Failed to get PDF file"}` after contacting the
store; an empty key (also absent from any store) is instead rejected 400
before the store is called — in neither case is a 200 produced. -/
theorem c5_amended_missing_key_is_500
    (store : List (String × Option Nat)) (k : String)
    (hlook : List.lookup k store = none) (hk : k ≠ "") :
    getS3FileStream store k = Except.error "Failed to stream file from S3" ∧
    apiFileGet store (some k) =
      ({ status := 500, headers := [], body := .jsonError "Failed to get PDF file" },
       true) ∧
    (apiFileGet store (some "")).1.status = 400 := by
  have hb : (k == "") = false := by simp [hk]
  refine ⟨?_, ?_, rfl⟩
  · simp [getS3FileStream, s3GetObject, hlook]
  · simp [apiFileGet, jsFalsyStr, hb, getS3FileStream, s3GetObject, hlook]

/-- Witness for the amended C5 at a concrete store and key. -/
theorem c5_amended_missing_key_is_500_witness :
    getS3FileStream [("present.pdf", some 3)] "missing.pdf" =
      Except.error "Failed to stream file from S3" ∧
    apiFileGet [("present.pdf", some 3)] (some "missing.pdf") =
      ({ status := 500, headers := [], body := .jsonError "Failed to get PDF file" },
       true) ∧
    (apiFileGet [("present.pdf", some 3)] (some "")).1.status = 400 :=
  c5_amended_missing_key_is_500 [("present.pdf", some 3)] "missing.pdf"
    (by decide) (by decide)

/-- A list entry whose upstream ETag wraps a value that itself contains a
double quote, used to separate "strip the surrounding quotes" from the
code's "strip every quote". -/
def c3Obj : S3Object :=
  { Key := some "a.pdf", LastModified := some 1, Size := some 1,
    ETag := some "\"a\"b\"" }

/-- Claim C3, counterexample: the upstream ETag `"a"b"` is the value `a"b`
wrapped in surrounding double quotes, but `listPDFFiles` exposes it as `ab`
(the global `replace(/"/g, '')` removes the inner quote too), not as the
claimed `a"b`. -/
theorem c3_counterexample_inner_quote_also_stripped :
    c3Obj.ETag = some ("\"" ++ "a\"b" ++ "\"") ∧
    listPDFFilesCore [c3Obj] 0 =
      [{ key := "a.pdf", lastModified := 1, size := 1, etag := "ab" }] ∧
    ("ab" : String) ≠ "a\"b" := by
  decide

/-- Strings without inner quotes lose exactly their surrounding quotes under
`replace(/"/g, '')`. -/
theorem removeQuotes_wrapped (v : String) (hv : ∀ c ∈ v.data, c ≠ '"') :
    removeQuotes ("\"" ++ v ++ "\"") = v := by
  have hdata : ("\"" ++ v ++ "\"").data = '"' :: v.data ++ ['"'] := by
    rw [String.data_append, String.data_append]
    rfl
  show String.mk _ = v
  rw [hdata]
  have hfil : v.data.filter (fun c => c != '"') = v.data :=
    List.filter_eq_self.mpr (fun c hc => by
      simpa using hv c hc)
  simp [List.filter_append, hfil]

/-- Claim C3 as amended: every listed object whose upstream ETag is a value
wrapped in surrounding double quotes and whose inner value contains no
double quote is exposed with exactly the surrounding quotes removed (in
general the code removes every quote character, so `"abc123"` is exposed as
`abc123`); the normalised entry belongs to the returned list. -/
theorem c3_amended_etag_quotes_stripped
    (os : List S3Object) (o : S3Object) (now : Nat) (v : String)
    (ho : o ∈ os) (hpdf : pdfKeyTest o = true)
    (htag : o.ETag = some ("\"" ++ v ++ "\""))
    (hv : ∀ c ∈ v.data, c ≠ '"') :
    toS3File now o ∈ listPDFFilesCore os now ∧ (toS3File now o).etag = v := by
  constructor
  · unfold listPDFFilesCore sortByNewest
    rw [(List.perm_insertionSort newerLE _).mem_iff]
    exact List.mem_map.mpr ⟨o, List.mem_filter.mpr ⟨ho, hpdf⟩, rfl⟩
  · show (o.ETag.map removeQuotes).getD "" = v
    rw [htag]
    simpa using removeQuotes_wrapped v hv

/-- Witness for the amended C3: the spec's own example, `"abc123"` exposed
as `abc123`. -/
theorem c3_amended_etag_quotes_stripped_witness :
    toS3File 0 { Key := some "x.pdf", LastModified := some 4, Size := some 9,
                 ETag := some "\"abc123\"" } ∈
      listPDFFilesCore
        [{ Key := some "x.pdf", LastModified := some 4, Size := some 9,
           ETag := some "\"abc123\"" }] 0 ∧
    (toS3File 0 { Key := some "x.pdf", LastModified := some 4, Size := some 9,
                  ETag := some "\"abc123\"" }).etag = "abc123" :=
  c3_amended_etag_quotes_stripped _ _ 0 "abc123" (List.mem_singleton.mpr rfl)
    (by decide) (by decide) (by decide)

/-- Claim C1: every entry of a `listPDFFiles` result has a key that,
lower-cased, ends with `.pdf`, and the result is non-increasing by
`lastModified` (most recent first). -/
theorem c1_entries_pdf_and_sorted (contents : List S3Object) (now : Nat) :
    ((listPDFFilesCore contents now).all
      (fun f => jsEndsWith (jsToLower f.key) ".pdf")) = true ∧
    List.Pairwise (fun a b : S3File => b.lastModified ≤ a.lastModified)
      (listPDFFilesCore contents now) := by
  constructor
  · rw [List.all_eq_true]
    intro f hf
    unfold listPDFFilesCore sortByNewest at hf
    rw [(List.perm_insertionSort newerLE _).mem_iff] at hf
    obtain ⟨o, ho, rfl⟩ := List.mem_map.mp hf
    have hpdf : pdfKeyTest o = true := (List.mem_filter.mp ho).2
    unfold pdfKeyTest at hpdf
    match hK : o.Key with
    | none => rw [hK] at hpdf; exact absurd hpdf (by simp)
    | some k =>
      rw [hK] at hpdf
      have := (Bool.and_eq_true _ _).mp hpdf
      show jsEndsWith (jsToLower (o.Key.getD "")) ".pdf" = true
      rw [hK]
      exact this.2
  · haveI : IsTotal S3File newerLE :=
      ⟨fun a b => Nat.le_total b.lastModified a.lastModified⟩
    haveI : IsTrans S3File newerLE :=
      ⟨fun _ _ _ h1 h2 => Nat.le_trans h2 h1⟩
    exact List.sorted_insertionSort newerLE _

/-- Membership in the filter/map/sort pipeline of `listPDFFiles`. -/
theorem mem_listPDFFilesCore {f : S3File} {cs : List S3Object} {now : Nat} :
    f ∈ listPDFFilesCore cs now ↔
      ∃ o ∈ cs, pdfKeyTest o = true ∧ toS3File now o = f := by
  unfold listPDFFilesCore sortByNewest
  rw [(List.perm_insertionSort newerLE _).mem_iff]
  simp [List.mem_map, List.mem_filter, and_assoc]

/-- The branch on an absent `Contents` field changes nothing observably:
`listPDFFiles` computes the pipeline over the prefix-restricted store. -/
theorem listPDFFiles_eq_core (store : List S3Object) (pfx : String) (now : Nat) :
    listPDFFiles store pfx now = listPDFFilesCore (s3ListUnder store pfx) now := by
  unfold listPDFFiles s3ListObjects
  cases h : (s3ListUnder store pfx).isEmpty with
  | true => rw [show s3ListUnder store pfx = [] from List.isEmpty_iff.mp h]; rfl
  | false => simp [h]

/-- An empty prefix restricts nothing. -/
theorem jsStartsWith_empty (s : String) : jsStartsWith s "" = true := by
  unfold jsStartsWith
  show ([] : List Char).isPrefixOf s.data = true
  cases s.data with
  | nil => rfl
  | cons c cs => rfl

/-- Claim C4: for every store state and non-empty prefix `p`, the entries of
`listPDFFiles` under `p` are exactly the entries of the empty-prefix listing
whose keys start with `p`. -/
theorem c4_prefixed_listing_is_restriction
    (store : List S3Object) (pfx : String) (_hp : pfx ≠ "") (now : Nat) (f : S3File) :
    f ∈ listPDFFiles store pfx now ↔
      f ∈ (listPDFFiles store "" now).filter (fun g => jsStartsWith g.key pfx) := by
  rw [listPDFFiles_eq_core, listPDFFiles_eq_core, List.mem_filter,
    mem_listPDFFilesCore, mem_listPDFFilesCore]
  unfold s3ListUnder
  constructor
  · rintro ⟨o, ho, hpdf, rfl⟩
    obtain ⟨hos, hsw⟩ := List.mem_filter.mp ho
    refine ⟨⟨o, List.mem_filter.mpr ⟨hos, jsStartsWith_empty _⟩, hpdf, rfl⟩, ?_⟩
    exact hsw
  · rintro ⟨⟨o, ho, hpdf, rfl⟩, hsw⟩
    exact ⟨o, List.mem_filter.mpr ⟨(List.mem_filter.mp ho).1, hsw⟩, hpdf, rfl⟩

/-- Witness for C4 at a concrete store, prefix, and candidate entry. -/
theorem c4_prefixed_listing_is_restriction_witness :
    { key := "reports/q1.pdf", lastModified := 1704067200000,
      size := 2048, etag := "abc" : S3File } ∈
        listPDFFiles c7Store "reports/" 0 ↔
      { key := "reports/q1.pdf", lastModified := 1704067200000,
        size := 2048, etag := "abc" : S3File } ∈
        (listPDFFiles c7Store "" 0).filter (fun g => jsStartsWith g.key "reports/") :=
  c4_prefixed_listing_is_restriction c7Store "reports/" (by decide) 0
    { key := "reports/q1.pdf", lastModified := 1704067200000,
      size := 2048, etag := "abc" }

/-- Literal scanned by the regex `/<Contents>(.*?)<\/Contents>/gs`. -/
def tagContentsOpen : List Char := "<Contents>".data

/-- Closing literal of the contents regex. -/
def tagContentsClose : List Char := "</Contents>".data

/-- Opening literal of `/<Key>(.*?)<\/Key>/`. -/
def tagKeyOpen : List Char := "<Key>".data

/-- Closing literal of the key regex. -/
def tagKeyClose : List Char := "</Key>".data

/-- Opening literal of `/<LastModified>(.*?)<\/LastModified>/`. -/
def tagLMOpen : List Char := "<LastModified>".data

/-- Closing literal of the last-modified regex. -/
def tagLMClose : List Char := "</LastModified>".data

/-- Opening literal of `/<Size>(\d+)<\/Size>/`. -/
def tagSizeOpen : List Char := "<Size>".data

/-- Closing literal of the size regex. -/
def tagSizeClose : List Char := "</Size>".data

/-- Opening tag of the ETag element as the encoder writes it. -/
def tagETagOpen : List Char := "<ETag>".data

/-- Closing tag of the ETag element as the encoder writes it. -/
def tagETagClose : List Char := "</ETag>".data

/-- Opening literal of `/<ETag>"(.*?)"<\/ETag>/` — the leading quote is part
of the matched literal. -/
def patETagOpen : List Char := "<ETag>\"".data

/-- Closing literal of the etag regex, starting with the trailing quote. -/
def patETagClose : List Char := "\"</ETag>".data

/-- Scans left to right for the first occurrence of the literal `pat` and
splits around it.  This is exactly how a regex engine locates the leftmost
match of a literal. -/
def splitFirst (pat : List Char) : List Char → Option (List Char × List Char)
  | [] => if pat.isPrefixOf [] then some ([], []) else none
  | c :: rest =>
    if pat.isPrefixOf (c :: rest) then some ([], (c :: rest).drop pat.length)
    else (splitFirst pat rest).map (fun pr => (c :: pr.1, pr.2))

/-- Leftmost match of a regex `opn(.*?)cls` built from two literals with a
lazy group: the group runs from the first `opn` to the first `cls` after it.
(If no `cls` follows the first `opn`, none follows a later `opn` either, so
there is no match at all — this scan is exactly the regex semantics.)
Returns the group and the remainder after the match. -/
def extractBetween (opn cls xs : List Char) : Option (List Char × List Char) :=
  match splitFirst opn xs with
  | none => none
  | some (_, rest) =>
    match splitFirst cls rest with
    | none => none
    | some (content, rest2) => some (content, rest2)

/-- First-match extraction of the lazy group, as used by the non-global
inner regexes of `parseS3ListResponse`. -/
def extractFirst (opn cls xs : List Char) : Option (List Char) :=
  (extractBetween opn cls xs).map Prod.fst

/-- The loop `while ((match = contentRegex.exec(xmlText)) !== null)` of
`parseS3ListResponse`, fuel-bounded: each match consumes at least the two
tag literals, so fuel `length + 1` is never exhausted
(`extractContents_step` below). -/
def extractContentsAux : Nat → List Char → List (List Char)
  | 0, _ => []
  | fuel + 1, xs =>
    match extractBetween tagContentsOpen tagContentsClose xs with
    | none => []
    | some (content, rest) => content :: extractContentsAux fuel rest

/-- All group captures of the global contents regex, in scan order. -/
def extractContents (xs : List Char) : List (List Char) :=
  extractContentsAux (xs.length + 1) xs

/-- Leftmost match of `/<Size>(\d+)<\/Size>/`: at each position the engine
tries the literal, then a maximal digit run (backtracking to a shorter run
cannot help, since the next literal starts with `<`), then the closing
literal, and moves one position right on failure. -/
def sizeScan : List Char → Option (List Char)
  | [] => none
  | c :: rest =>
    if tagSizeOpen.isPrefixOf (c :: rest) then
      if ((c :: rest).drop tagSizeOpen.length).takeWhile Char.isDigit = [] then
        sizeScan rest
      else if tagSizeClose.isPrefixOf
          (((c :: rest).drop tagSizeOpen.length).drop
            (((c :: rest).drop tagSizeOpen.length).takeWhile Char.isDigit).length) then
        some (((c :: rest).drop tagSizeOpen.length).takeWhile Char.isDigit)
      else sizeScan rest
    else sizeScan rest

/-- The per-`<Contents>`-block body of `parseS3ListResponse`: the four inner
regexes; the entry is kept only when every capture exists and is truthy
(a captured empty string is falsy in JS and rejected by the guard
`keyMatch?.[1] && lastModifiedMatch?.[1] && sizeMatch?.[1] && etagMatch?.[1]`). -/
def parseContent (content : List Char) : Option S3File :=
  match extractFirst tagKeyOpen tagKeyClose content,
        extractFirst tagLMOpen tagLMClose content,
        sizeScan content,
        extractFirst patETagOpen patETagClose content with
  | some k, some lm, some sz, some et =>
    if k.isEmpty || lm.isEmpty || et.isEmpty then none
    else some { key := ⟨k⟩, lastModified := natOfDigits lm,
                size := natOfDigits sz, etag := ⟨et⟩ }
  | _, _, _, _ => none

/-- `parseS3ListResponse(xmlText)`: regex-parses the raw XML listing. -/
def parseS3ListResponse (xmlText : String) : List S3File :=
  (extractContents xmlText.data).filterMap parseContent

/-- `listPDFFilesSimple(bucketName, prefix)` applied to the XML body with
which the public HTTPS endpoint answered its fetch (a non-OK fetch throws
before any parsing; this is the success path): parse, filter to `.pdf`
keys, sort most-recent-first. -/
def listPDFFilesSimple (xmlText : String) : List S3File :=
  sortByNewest
    ((parseS3ListResponse xmlText).filter (fun f => jsEndsWith (jsToLower f.key) ".pdf"))

/-- Modelled from the spec: the element content of one `<Contents>` block of
a `ListObjectsV2` XML response, an element being omitted when the
corresponding SDK-level field is absent.  The ETag element's text carries
the same quoted value the SDK reports. -/
def objectInnerXml (o : S3Object) : List Char :=
  (match o.Key with
   | none => []
   | some k => tagKeyOpen ++ k.data ++ tagKeyClose) ++
  (match o.LastModified with
   | none => []
   | some t => tagLMOpen ++ decimalDigits t ++ tagLMClose) ++
  (match o.Size with
   | none => []
   | some n => tagSizeOpen ++ decimalDigits n ++ tagSizeClose) ++
  (match o.ETag with
   | none => []
   | some e => tagETagOpen ++ e.data ++ tagETagClose)

/-- Modelled from the spec: the XML with which the store's public HTTPS
endpoint encodes one listed object.  (The surrounding `ListBucketResult`
material contains no `Contents` tags and is elided.) -/
def encodeObjectXml (o : S3Object) : List Char :=
  tagContentsOpen ++ objectInnerXml o ++ tagContentsClose

/-- Modelled from the spec: the XML encoding of a whole object listing, the
concatenation of its `<Contents>` elements in listing order. -/
def encodeListXml : List S3Object → List Char
  | [] => []
  | o :: os => encodeObjectXml o ++ encodeListXml os

/-- A listing entry on which the regex parser loses no information: all four
fields present, the key non-empty and free of `<`, and the ETag a quoted
non-empty value whose inner part is free of `"` and `<` (an empty inner
value would be a falsy capture, also dropped by the parser's guard). -/
def wellFormedEntry (o : S3Object) : Bool :=
  match o.Key, o.LastModified, o.Size, o.ETag with
  | some k, some _, some _, some e =>
    (k != "") && k.data.all (fun c => c != '<') &&
    decide (3 ≤ e.data.length) &&
    (e.data.head? == some '"') && (e.data.getLast? == some '"') &&
    ((e.data.drop 1).dropLast.all (fun c => c != '"' && c != '<'))
  | _, _, _, _ => false

/-- An entry with a key but no timestamp, size, or etag: the primary path
defaults the missing fields, the Simple path's parser drops the entry. -/
def c8BadObj : S3Object :=
  { Key := some "a.pdf", LastModified := none, Size := none, ETag := none }

/-- Claim C8, counterexample: on the one-entry listing whose entry misses
timestamp, size, and etag, the public-endpoint XML round trip returns the
empty list while the primary SDK path returns the entry with defaulted
fields, so the two paths are not behaviourally equivalent. -/
theorem c8_counterexample_missing_fields_dropped :
    listPDFFilesSimple ⟨encodeListXml [c8BadObj]⟩ = [] ∧
    listPDFFilesCore [c8BadObj] 0 =
      [{ key := "a.pdf", lastModified := 0, size := 0, etag := "" }] ∧
    listPDFFilesSimple ⟨encodeListXml [c8BadObj]⟩ ≠ listPDFFilesCore [c8BadObj] 0 := by
  decide

/-- A mismatch of `p` against `s` inside their common range. -/
def mism (p s : List Char) : Bool :=
  (List.zip p s).any (fun pr => pr.1 != pr.2)

/-- A pattern that mismatches a string inside the common range is not a
prefix of that string under any continuation. -/
theorem not_isPrefixOf_append_of_mism :
    ∀ {p s : List Char}, mism p s = true →
      ∀ rest, p.isPrefixOf (s ++ rest) = false := by
  intro p
  induction p with
  | nil => intro s h rest; exact absurd h (by simp [mism])
  | cons a p' ih =>
    intro s h rest
    cases s with
    | nil => exact absurd h (by simp [mism])
    | cons b s' =>
      rw [List.cons_append]
      show (a == b && (p'.isPrefixOf (s' ++ rest))) = false
      rcases hab : a == b with _ | _
      · simp
      · have hne : a = b := by simpa using hab
        have : mism p' s' = true := by
          simpa [mism, hne] using h
        simp [ih this rest]

/-- No occurrence of `pat` starts strictly inside `xs`, whatever follows
`xs`. -/
def BlocksPat (pat xs : List Char) : Prop :=
  ∀ s rest : List Char, s ≠ [] → s <:+ xs → pat.isPrefixOf (s ++ rest) = false

/-- Decidable sufficient test for `BlocksPat` on concrete tag literals. -/
def blocksB (p tag : List Char) : Bool :=
  tag.tails.all (fun s => s.isEmpty || mism p s)

/-- Soundness of `blocksB`. -/
theorem blocksPat_of_blocksB {p tag : List Char} (h : blocksB p tag = true) :
    BlocksPat p tag := by
  intro s rest hs hsfx
  have hmem : s ∈ tag.tails := (List.mem_tails _ _).mpr hsfx
  have := List.all_eq_true.mp h s hmem
  rcases Bool.or_eq_true_iff.mp this with h1 | h2
  · exact absurd (List.isEmpty_iff.mp h1) hs
  · exact not_isPrefixOf_append_of_mism h2 rest

/-- A string free of the pattern's first character blocks the pattern. -/
theorem blocksPat_of_head_notMem {c₀ : Char} {p' v : List Char}
    (hv : ∀ c ∈ v, c ≠ c₀) : BlocksPat (c₀ :: p') v := by
  intro s rest hs hsfx
  cases s with
  | nil => exact absurd rfl hs
  | cons c s' =>
    have hc : c ∈ v := hsfx.subset (List.mem_cons_self c s')
    rw [List.cons_append]
    show (c₀ == c && (p'.isPrefixOf (s' ++ rest))) = false
    have : (c₀ == c) = false :=
      beq_eq_false_iff_ne.mpr (fun h => hv c hc h.symm)
    simp [this]

/-- Nonempty suffixes of an append either live in the right part or cover
it entirely. -/
theorem suffix_append_cases :
    ∀ {s a b : List Char}, s <:+ a ++ b →
      s <:+ b ∨ ∃ s₁, s₁ ≠ [] ∧ s₁ <:+ a ∧ s = s₁ ++ b := by
  intro s a
  induction a generalizing s with
  | nil => intro b h; exact Or.inl h
  | cons c a' ih =>
    intro b h
    rw [List.cons_append, List.suffix_cons_iff] at h
    rcases h with h | h
    · exact Or.inr ⟨c :: a', by simp, List.suffix_refl _, by simpa using h⟩
    · rcases ih h with h1 | ⟨s₁, hne, hsfx, heq⟩
      · exact Or.inl h1
      · exact Or.inr ⟨s₁, hne, hsfx.trans (List.suffix_cons c a'), heq⟩

/-- Blocking is preserved by concatenation. -/
theorem blocksPat_append {pat a b : List Char}
    (ha : BlocksPat pat a) (hb : BlocksPat pat b) : BlocksPat pat (a ++ b) := by
  intro s rest hs hsfx
  rcases suffix_append_cases hsfx with h | ⟨s₁, hne, hsfx₁, rfl⟩
  · exact hb s rest hs h
  · rw [List.append_assoc]
    exact ha s₁ (b ++ rest) hne hsfx₁

/-- A successful `splitFirst` is a decomposition of the input. -/
theorem splitFirst_eq_append :
    ∀ {pat xs a b : List Char}, splitFirst pat xs = some (a, b) →
      xs = a ++ (pat ++ b) := by
  intro pat xs
  induction xs with
  | nil =>
    intro a b h
    cases pat with
    | nil =>
      simp only [splitFirst] at h
      rcases h with ⟨⟩ | _
      · simp_all [splitFirst]
    | cons p ps => simp [splitFirst, List.isPrefixOf] at h
  | cons c rest ih =>
    intro a b h
    by_cases hp : pat.isPrefixOf (c :: rest)
    · rw [splitFirst, if_pos hp] at h
      obtain ⟨t, ht⟩ := List.isPrefixOf_iff_prefix.mp hp
      injection h with h'
      obtain ⟨rfl, rfl⟩ := Prod.mk.injEq .. ▸ (Prod.mk.inj h')
      rw [List.nil_append, ← ht, List.drop_left]
    · rw [splitFirst, if_neg hp] at h
      cases hsf : splitFirst pat rest with
      | none => rw [hsf] at h; simp at h
      | some pr =>
        obtain ⟨a', b'⟩ := pr
        rw [hsf] at h
        simp only [Option.map, Option.some.injEq, Prod.mk.injEq] at h
        obtain ⟨rfl, rfl⟩ := h
        rw [List.cons_append]
        exact congrArg (c :: ·) (ih hsf)

/-- Splitting at an immediate occurrence of the pattern. -/
theorem splitFirst_here (pat rest : List Char) :
    splitFirst pat (pat ++ rest) = some ([], rest) := by
  cases pat with
  | nil =>
    cases rest with
    | nil => rfl
    | cons c cs => rfl
  | cons p ps =>
    rw [List.cons_append, splitFirst, if_pos]
    · rw [show (p :: (ps ++ rest)).drop (p :: ps).length = rest from ?_]
      rw [← List.cons_append, List.drop_left]
    · exact List.isPrefixOf_iff_prefix.mpr (by rw [← List.cons_append]; exact List.prefix_append _ _)

/-- Scanning skips over a blocking left part. -/
theorem splitFirst_skip {pat a : List Char} (ha : BlocksPat pat a) :
    ∀ rest, splitFirst pat (a ++ rest) =
      (splitFirst pat rest).map (fun pr => (a ++ pr.1, pr.2)) := by
  induction a with
  | nil =>
    intro rest
    simp only [List.nil_append]
    cases h : splitFirst pat rest <;> simp
  | cons c a' ih =>
    intro rest
    have hblock : BlocksPat pat a' := by
      intro s r hs hsfx
      exact ha s r hs (hsfx.trans (List.suffix_cons c a'))
    have hnp : pat.isPrefixOf (c :: (a' ++ rest)) = false := by
      have := ha (c :: a') rest (by simp) (List.suffix_refl _)
      simpa using this
    rw [List.cons_append, splitFirst, if_neg (by simp only [hnp]; decide),
      ih hblock rest, Option.map_map]
    cases h : splitFirst pat rest <;> simp

/-- The digit-production fuel is irrelevant once it exceeds the number. -/
theorem decimalDigitsAux_irrel :
    ∀ (f1 : Nat), ∀ {n : Nat}, n < f1 → ∀ {f2 : Nat}, n < f2 →
      decimalDigitsAux f1 n = decimalDigitsAux f2 n := by
  intro f1
  induction f1 with
  | zero => intro n h; exact absurd h (Nat.not_lt_zero n)
  | succ g1 ih =>
    intro n h1 f2 h2
    cases f2 with
    | zero => exact absurd h2 (Nat.not_lt_zero n)
    | succ g2 =>
      show decimalDigitsAux (g1 + 1) n = decimalDigitsAux (g2 + 1) n
      by_cases hn : n < 10
      · simp [decimalDigitsAux, hn]
      · have hd1 : n / 10 < g1 := by omega
        have hd2 : n / 10 < g2 := by omega
        simp only [decimalDigitsAux, if_neg hn]
        rw [ih hd1 hd2]

/-- Every character a numeral produces is a decimal digit character. -/
theorem mem_decimalDigitsAux :
    ∀ (fuel n : Nat) (c : Char), c ∈ decimalDigitsAux fuel n →
      ∃ d, d < 10 ∧ c = Char.ofNat (48 + d) := by
  intro fuel
  induction fuel with
  | zero => intro n c h; exact absurd h (by simp [decimalDigitsAux])
  | succ g ih =>
    intro n c h
    by_cases hn : n < 10
    · simp only [decimalDigitsAux, if_pos hn, List.mem_singleton] at h
      exact ⟨n, hn, h⟩
    · simp only [decimalDigitsAux, if_neg hn, List.mem_append,
        List.mem_singleton] at h
      rcases h with h | h
      · exact ih (n / 10) c h
      · exact ⟨n % 10, Nat.mod_lt n (by omega), h⟩

/-- Digit characters are digits and are neither `<` nor `"`. -/
theorem digit_char_props (d : Nat) (hd : d < 10) :
    (Char.ofNat (48 + d)).isDigit = true ∧
    Char.ofNat (48 + d) ≠ '<' ∧ Char.ofNat (48 + d) ≠ '"' := by
  interval_cases d <;> decide

/-- Characters of a decimal numeral: digits, never `<` or `"`. -/
theorem decimalDigits_char_props {n : Nat} {c : Char} (h : c ∈ decimalDigits n) :
    c.isDigit = true ∧ c ≠ '<' ∧ c ≠ '"' := by
  obtain ⟨d, hd, rfl⟩ := mem_decimalDigitsAux (n + 1) n c h
  exact digit_char_props d hd

/-- A decimal numeral is never empty. -/
theorem decimalDigits_ne_nil (n : Nat) : decimalDigits n ≠ [] := by
  unfold decimalDigits decimalDigitsAux
  by_cases hn : n < 10 <;> simp [hn]

/-- The toNat of a digit character built from `d < 10`. -/
theorem toNat_digit_char (d : Nat) (hd : d < 10) :
    (Char.ofNat (48 + d)).toNat = 48 + d := by
  interval_cases d <;> decide

/-- Reading one more trailing digit. -/
theorem natOfDigits_append_singleton (ds : List Char) (c : Char) :
    natOfDigits (ds ++ [c]) = natOfDigits ds * 10 + (c.toNat - 48) := by
  unfold natOfDigits
  rw [List.foldl_append]
  rfl

/-- Decimal print/parse round trip: the model's `parseInt` inverts the
model's `toString`. -/
theorem natOfDigits_decimalDigits : ∀ n : Nat, natOfDigits (decimalDigits n) = n := by
  intro n
  induction n using Nat.strong_induction_on with
  | _ n ih =>
    unfold decimalDigits
    by_cases hn : n < 10
    · show natOfDigits (decimalDigitsAux (n + 1) n) = n
      rw [show decimalDigitsAux (n + 1) n = [Char.ofNat (48 + n)] from by
        cases n with
        | zero => rfl
        | succ m => simp [decimalDigitsAux, hn]]
      show 0 * 10 + ((Char.ofNat (48 + n)).toNat - 48) = n
      rw [toNat_digit_char n hn]
      omega
    · show natOfDigits (decimalDigitsAux (n + 1) n) = n
      rw [show decimalDigitsAux (n + 1) n =
          decimalDigitsAux n (n / 10) ++ [Char.ofNat (48 + n % 10)] from by
        cases n with
        | zero => omega
        | succ m => simp [decimalDigitsAux, hn]]
      rw [show decimalDigitsAux n (n / 10) = decimalDigits (n / 10) from
        decimalDigitsAux_irrel n (by omega) (by omega)]
      rw [natOfDigits_append_singleton, ih (n / 10) (by omega),
        toNat_digit_char (n % 10) (Nat.mod_lt n (by omega))]
      omega

/-- A maximal digit run stops at the `<` that opens the closing tag. -/
theorem takeWhile_digits_append (ds : List Char)
    (hds : ∀ c ∈ ds, c.isDigit = true) (r : List Char) :
    (ds ++ '<' :: r).takeWhile Char.isDigit = ds := by
  induction ds with
  | nil => simp [List.takeWhile]
  | cons d ds' ih =>
    rw [List.cons_append, List.takeWhile_cons,
      if_pos (hds d (List.mem_cons_self d ds'))]
    rw [ih (fun c hc => hds c (List.mem_cons_of_mem d hc))]

/-- `BlocksPat` from the pattern's head character being absent from the
string. -/
theorem blocksPat_head {pat v : List Char} {c₀ : Char}
    (hpat : pat.head? = some c₀) (hv : ∀ c ∈ v, c ≠ c₀) : BlocksPat pat v := by
  cases pat with
  | nil => exact absurd hpat (by simp)
  | cons p ps =>
    have : p = c₀ := by simpa using hpat
    subst this
    exact blocksPat_of_head_notMem hv

/-- A lazy two-literal regex finds the bracketed group at the start. -/
theorem extractBetween_here (opn cls inner tail : List Char)
    (hb : BlocksPat cls inner) :
    extractBetween opn cls (opn ++ (inner ++ (cls ++ tail))) = some (inner, tail) := by
  unfold extractBetween
  rw [splitFirst_here]
  show (match splitFirst cls (inner ++ (cls ++ tail)) with
        | none => none
        | some (content, rest2) => some (content, rest2)) = some (inner, tail)
  rw [splitFirst_skip hb, splitFirst_here]
  simp

/-- A lazy two-literal regex skips a blocking left context and finds the
bracketed group. -/
theorem extractFirst_skip_found (opn cls pre mid tail : List Char)
    (hpre : BlocksPat opn pre) (hmid : BlocksPat cls mid) :
    extractFirst opn cls (pre ++ (opn ++ (mid ++ (cls ++ tail)))) = some mid := by
  unfold extractFirst extractBetween
  rw [splitFirst_skip hpre, splitFirst_here]
  show Option.map Prod.fst
      (match splitFirst cls (mid ++ (cls ++ tail)) with
       | none => none
       | some (content, rest2) => some (content, rest2)) = some mid
  rw [splitFirst_skip hmid, splitFirst_here]
  simp

/-- The size scan skips a left context in which its opening literal never
matches. -/
theorem sizeScan_skip {pre : List Char} (hpre : BlocksPat tagSizeOpen pre) :
    ∀ rest, sizeScan (pre ++ rest) = sizeScan rest := by
  induction pre with
  | nil => intro rest; rfl
  | cons c pre' ih =>
    intro rest
    have hblock : BlocksPat tagSizeOpen pre' := by
      intro s r hs hsfx
      exact hpre s r hs (hsfx.trans (List.suffix_cons c pre'))
    have hnp : tagSizeOpen.isPrefixOf (c :: (pre' ++ rest)) = false := by
      have := hpre (c :: pre') rest (by simp) (List.suffix_refl _)
      simpa using this
    rw [List.cons_append, sizeScan, if_neg (by simp only [hnp]; decide)]
    exact ih hblock rest

/-- The size scan finds a non-empty digit run bracketed by the two size
literals. -/
theorem sizeScan_found (ds : List Char) (hnil : ds ≠ [])
    (hds : ∀ c ∈ ds, c.isDigit = true) (rest : List Char) :
    sizeScan (tagSizeOpen ++ (ds ++ (tagSizeClose ++ rest))) = some ds := by
  have hshape : tagSizeOpen ++ (ds ++ (tagSizeClose ++ rest)) =
      '<' :: ("Size>".data ++ (ds ++ (tagSizeClose ++ rest))) := rfl
  have hafter : (('<' : Char) :: ("Size>".data ++ (ds ++ (tagSizeClose ++ rest)))).drop
      tagSizeOpen.length = ds ++ (tagSizeClose ++ rest) := by
    show (tagSizeOpen ++ (ds ++ (tagSizeClose ++ rest))).drop tagSizeOpen.length = _
    exact List.drop_left _ _
  have htake : (ds ++ (tagSizeClose ++ rest)).takeWhile Char.isDigit = ds := by
    rw [show tagSizeClose ++ rest = '<' :: ("/Size>".data ++ rest) from rfl]
    exact takeWhile_digits_append ds hds _
  have hcond : tagSizeOpen.isPrefixOf
      ('<' :: ("Size>".data ++ (ds ++ (tagSizeClose ++ rest)))) = true := by
    rw [← hshape]
    exact List.isPrefixOf_iff_prefix.mpr (List.prefix_append _ _)
  have hclose : tagSizeClose.isPrefixOf
      ((ds ++ (tagSizeClose ++ rest)).drop ds.length) = true := by
    rw [List.drop_left]
    exact List.isPrefixOf_iff_prefix.mpr (List.prefix_append _ _)
  rw [hshape, sizeScan, if_pos hcond, hafter, htake, if_neg hnil, if_pos hclose]

/-- A successful contents-block match consumes part of the input. -/
theorem extractBetween_contents_length {xs content rest : List Char}
    (h : extractBetween tagContentsOpen tagContentsClose xs = some (content, rest)) :
    rest.length < xs.length := by
  unfold extractBetween at h
  cases h1 : splitFirst tagContentsOpen xs with
  | none =>
    rw [h1] at h
    exact absurd h (by simp)
  | some pr1 =>
    obtain ⟨a1, r1⟩ := pr1
    rw [h1] at h
    replace h : (match splitFirst tagContentsClose r1 with
                 | none => none
                 | some (content, rest2) => some (content, rest2)) =
        some (content, rest) := h
    cases h2 : splitFirst tagContentsClose r1 with
    | none =>
      rw [h2] at h
      exact absurd h (by simp)
    | some pr2 =>
      obtain ⟨c2, r2⟩ := pr2
      rw [h2] at h
      replace h : some (c2, r2) = some (content, rest) := h
      simp only [Option.some.injEq, Prod.mk.injEq] at h
      obtain ⟨rfl, rfl⟩ := h
      have e1 := splitFirst_eq_append h1
      have e2 := splitFirst_eq_append h2
      subst e1
      subst e2
      have ho : tagContentsOpen.length = 10 := by decide
      have hc : tagContentsClose.length = 11 := by decide
      simp only [List.length_append, ho, hc]
      omega

/-- The loop fuel is irrelevant once it exceeds the input length. -/
theorem extractContentsAux_irrel :
    ∀ (f1 f2 : Nat) (xs : List Char), xs.length < f1 → xs.length < f2 →
      extractContentsAux f1 xs = extractContentsAux f2 xs := by
  intro f1
  induction f1 with
  | zero => intro f2 xs h1 h2; exact absurd h1 (Nat.not_lt_zero _)
  | succ g1 ih =>
    intro f2 xs h1 h2
    cases f2 with
    | zero => exact absurd h2 (Nat.not_lt_zero _)
    | succ g2 =>
      cases h : extractBetween tagContentsOpen tagContentsClose xs with
      | none =>
        unfold extractContentsAux
        rw [h]
      | some pr =>
        obtain ⟨content, rest⟩ := pr
        have hlt := extractBetween_contents_length h
        unfold extractContentsAux
        rw [h]
        show content :: extractContentsAux g1 rest = content :: extractContentsAux g2 rest
        exact congrArg _ (ih g2 rest (by omega) (by omega))

/-- One iteration of the contents loop. -/
theorem extractContents_step {xs content rest : List Char}
    (h : extractBetween tagContentsOpen tagContentsClose xs = some (content, rest)) :
    extractContents xs = content :: extractContents rest := by
  have hlt := extractBetween_contents_length h
  unfold extractContents
  calc extractContentsAux (xs.length + 1) xs
      = (match extractBetween tagContentsOpen tagContentsClose xs with
         | none => []
         | some (content, rest) => content :: extractContentsAux xs.length rest) := rfl
    _ = content :: extractContentsAux xs.length rest := by rw [h]
    _ = content :: extractContentsAux (rest.length + 1) rest := by
        rw [extractContentsAux_irrel xs.length (rest.length + 1) rest (by omega) (by omega)]

/-- The empty string blocks every pattern (vacuously). -/
theorem blocksPat_nil {pat : List Char} : BlocksPat pat [] := by
  intro s rest hs hsfx
  have : s = [] := by simpa using hsfx
  exact absurd this hs

/-- Non-empty lists are not `isEmpty`. -/
theorem isEmpty_false_of_ne_nil {l : List Char} (h : l ≠ []) : l.isEmpty = false := by
  cases l with
  | nil => exact absurd rfl h
  | cons a as => rfl

/-- The regex parser recovers one well-shaped object body exactly: key,
timestamp, size, and the etag's inner value. -/
theorem parseContent_inner (k : String) (t n : Nat) (e : String) (mid : List Char)
    (hk : k ≠ "") (hklt : ∀ c ∈ k.data, c ≠ '<')
    (hmid_ne : mid ≠ [])
    (he : e.data = '"' :: (mid ++ ['"']))
    (hmq : ∀ c ∈ mid, c ≠ '"') :
    parseContent (objectInnerXml
        { Key := some k, LastModified := some t, Size := some n, ETag := some e }) =
      some { key := k, lastModified := t, size := n, etag := ⟨mid⟩ } := by
  have hdigT : ∀ c ∈ decimalDigits t, c ≠ '<' :=
    fun c hc => (decimalDigits_char_props hc).2.1
  have hdigN : ∀ c ∈ decimalDigits n, c ≠ '<' :=
    fun c hc => (decimalDigits_char_props hc).2.1
  have hbA : BlocksPat tagLMOpen ((tagKeyOpen ++ k.data) ++ tagKeyClose) :=
    blocksPat_append
      (blocksPat_append (blocksPat_of_blocksB (by decide)) (blocksPat_head (by decide) hklt))
      (blocksPat_of_blocksB (by decide))
  have hbSizeA : BlocksPat tagSizeOpen ((tagKeyOpen ++ k.data) ++ tagKeyClose) :=
    blocksPat_append
      (blocksPat_append (blocksPat_of_blocksB (by decide)) (blocksPat_head (by decide) hklt))
      (blocksPat_of_blocksB (by decide))
  have hbSizeB : BlocksPat tagSizeOpen ((tagLMOpen ++ decimalDigits t) ++ tagLMClose) :=
    blocksPat_append
      (blocksPat_append (blocksPat_of_blocksB (by decide)) (blocksPat_head (by decide) hdigT))
      (blocksPat_of_blocksB (by decide))
  have hbEtagA : BlocksPat patETagOpen ((tagKeyOpen ++ k.data) ++ tagKeyClose) :=
    blocksPat_append
      (blocksPat_append (blocksPat_of_blocksB (by decide)) (blocksPat_head (by decide) hklt))
      (blocksPat_of_blocksB (by decide))
  have hbEtagB : BlocksPat patETagOpen ((tagLMOpen ++ decimalDigits t) ++ tagLMClose) :=
    blocksPat_append
      (blocksPat_append (blocksPat_of_blocksB (by decide)) (blocksPat_head (by decide) hdigT))
      (blocksPat_of_blocksB (by decide))
  have hbEtagC : BlocksPat patETagOpen ((tagSizeOpen ++ decimalDigits n) ++ tagSizeClose) :=
    blocksPat_append
      (blocksPat_append (blocksPat_of_blocksB (by decide)) (blocksPat_head (by decide) hdigN))
      (blocksPat_of_blocksB (by decide))
  have hKeyExtract : extractFirst tagKeyOpen tagKeyClose
      (objectInnerXml
        { Key := some k, LastModified := some t, Size := some n, ETag := some e }) =
      some k.data := by
    rw [show objectInnerXml
        { Key := some k, LastModified := some t, Size := some n, ETag := some e } =
        [] ++ (tagKeyOpen ++ (k.data ++ (tagKeyClose ++
          (tagLMOpen ++ (decimalDigits t ++ (tagLMClose ++
            (tagSizeOpen ++ (decimalDigits n ++ (tagSizeClose ++
              (tagETagOpen ++ (e.data ++ tagETagClose)))))))))))
      from by simp [objectInnerXml, List.append_assoc]]
    exact extractFirst_skip_found _ _ _ _ _ blocksPat_nil
      (blocksPat_head (by decide) hklt)
  have hLMExtract : extractFirst tagLMOpen tagLMClose
      (objectInnerXml
        { Key := some k, LastModified := some t, Size := some n, ETag := some e }) =
      some (decimalDigits t) := by
    rw [show objectInnerXml
        { Key := some k, LastModified := some t, Size := some n, ETag := some e } =
        ((tagKeyOpen ++ k.data) ++ tagKeyClose) ++ (tagLMOpen ++ (decimalDigits t ++
          (tagLMClose ++ (tagSizeOpen ++ (decimalDigits n ++ (tagSizeClose ++
            (tagETagOpen ++ (e.data ++ tagETagClose))))))))
      from by simp [objectInnerXml, List.append_assoc]]
    exact extractFirst_skip_found _ _ _ _ _ hbA (blocksPat_head (by decide) hdigT)
  have hSizeExtract : sizeScan
      (objectInnerXml
        { Key := some k, LastModified := some t, Size := some n, ETag := some e }) =
      some (decimalDigits n) := by
    rw [show objectInnerXml
        { Key := some k, LastModified := some t, Size := some n, ETag := some e } =
        (((tagKeyOpen ++ k.data) ++ tagKeyClose) ++
          ((tagLMOpen ++ decimalDigits t) ++ tagLMClose)) ++
          (tagSizeOpen ++ (decimalDigits n ++ (tagSizeClose ++
            (tagETagOpen ++ (e.data ++ tagETagClose)))))
      from by simp [objectInnerXml, List.append_assoc]]
    rw [sizeScan_skip (blocksPat_append hbSizeA hbSizeB)]
    exact sizeScan_found (decimalDigits n) (decimalDigits_ne_nil n)
      (fun c hc => (decimalDigits_char_props hc).1) _
  have hEtagExtract : extractFirst patETagOpen patETagClose
      (objectInnerXml
        { Key := some k, LastModified := some t, Size := some n, ETag := some e }) =
      some mid := by
    have hEO : tagETagOpen ++ ['"'] = patETagOpen := by decide
    have hEC : ('"' : Char) :: tagETagClose = patETagClose := by decide
    rw [show objectInnerXml
        { Key := some k, LastModified := some t, Size := some n, ETag := some e } =
        ((((tagKeyOpen ++ k.data) ++ tagKeyClose) ++
          ((tagLMOpen ++ decimalDigits t) ++ tagLMClose)) ++
          ((tagSizeOpen ++ decimalDigits n) ++ tagSizeClose)) ++
          (patETagOpen ++ (mid ++ (patETagClose ++ [])))
      from by simp [objectInnerXml, List.append_assoc, he, ← hEO, ← hEC]]
    exact extractFirst_skip_found _ _ _ _ _
      (blocksPat_append (blocksPat_append hbEtagA hbEtagB) hbEtagC)
      (blocksPat_head (by decide) hmq)
  have hkd : k.data ≠ [] := by
    intro h0
    apply hk
    cases k with
    | mk d => rw [show d = [] from h0]
  unfold parseContent
  rw [hKeyExtract, hLMExtract, hSizeExtract, hEtagExtract]
  have hcond : (k.data.isEmpty || (decimalDigits t).isEmpty || mid.isEmpty) = false := by
    rw [isEmpty_false_of_ne_nil hkd, isEmpty_false_of_ne_nil (decimalDigits_ne_nil t),
      isEmpty_false_of_ne_nil hmid_ne]
    rfl
  show (if (k.data.isEmpty || (decimalDigits t).isEmpty || mid.isEmpty) = true then none
        else some (⟨⟨k.data⟩, natOfDigits (decimalDigits t),
          natOfDigits (decimalDigits n), ⟨mid⟩⟩ : S3File)) =
      some (⟨k, t, n, ⟨mid⟩⟩ : S3File)
  rw [if_neg (by simp only [hcond]; decide)]
  rw [natOfDigits_decimalDigits, natOfDigits_decimalDigits]

/-- A string of length at least three that starts and ends with a double
quote is a quoted non-empty inner value. -/
theorem etag_shape {e : String} (h3 : 3 ≤ e.data.length)
    (hh : e.data.head? = some '"') (hl : e.data.getLast? = some '"') :
    ∃ mid, mid ≠ [] ∧ e.data = '"' :: (mid ++ ['"']) ∧
      mid = (e.data.drop 1).dropLast := by
  cases hd : e.data with
  | nil => rw [hd] at h3; simp at h3
  | cons c r =>
    rw [hd] at hh hl h3
    have hc : c = '"' := by simpa using hh
    subst hc
    cases hr : r with
    | nil => rw [hr] at h3; simp at h3
    | cons r0 r' =>
      subst hr
      have hl2 : (r0 :: r').getLast? = some '"' := by
        rw [← List.getLast?_cons_cons]
        exact hl
      have hne : (r0 :: r') ≠ [] := by simp
      have hlast : (r0 :: r').getLast hne = '"' := by
        have h4 := List.getLast?_eq_getLast (r0 :: r') hne
        rw [h4] at hl2
        simpa using hl2
      refine ⟨(r0 :: r').dropLast, ?_, ?_, by simp⟩
      · cases r' with
        | nil => simp at h3
        | cons r1 r'' => simp [List.dropLast]
      · have h5 := List.dropLast_append_getLast hne
        rw [hlast] at h5
        rw [h5]

/-- Destructuring of a well-formed entry into its fields and the inner etag
value. -/
theorem wellFormedEntry_elim {o : S3Object} (h : wellFormedEntry o = true) :
    ∃ (k : String) (t n : Nat) (e : String) (mid : List Char),
      o = { Key := some k, LastModified := some t, Size := some n, ETag := some e } ∧
      k ≠ "" ∧ (∀ c ∈ k.data, c ≠ '<') ∧
      mid ≠ [] ∧ e.data = '"' :: (mid ++ ['"']) ∧
      (∀ c ∈ mid, c ≠ '"') ∧ (∀ c ∈ mid, c ≠ '<') := by
  obtain ⟨K, T, N, E⟩ := o
  cases K with
  | none => exact absurd h (by simp [wellFormedEntry])
  | some k =>
  cases T with
  | none => exact absurd h (by simp [wellFormedEntry])
  | some t =>
  cases N with
  | none => exact absurd h (by simp [wellFormedEntry])
  | some n =>
  cases E with
  | none => exact absurd h (by simp [wellFormedEntry])
  | some e =>
    simp only [wellFormedEntry, Bool.and_eq_true, bne_iff_ne, ne_eq,
      List.all_eq_true, decide_eq_true_eq, beq_iff_eq] at h
    obtain ⟨⟨⟨⟨⟨hk, hklt⟩, h3⟩, hh⟩, hl⟩, hmid⟩ := h
    obtain ⟨mid, hmne, he, hmideq⟩ := etag_shape h3 hh hl
    refine ⟨k, t, n, e, mid, rfl, hk, ?_, hmne, he, ?_, ?_⟩
    · intro c hc
      simpa using hklt c hc
    · intro c hc
      rw [hmideq] at hc
      have := hmid c hc
      simpa using this.1
    · intro c hc
      rw [hmideq] at hc
      have := hmid c hc
      simpa using this.2

/-- The contents regex carves one encoded well-shaped object off the front
of the stream, leaving the rest. -/
theorem extractBetween_encode_object (k : String) (t n : Nat) (e : String)
    (mid : List Char) (hklt : ∀ c ∈ k.data, c ≠ '<')
    (he : e.data = '"' :: (mid ++ ['"'])) (hml : ∀ c ∈ mid, c ≠ '<')
    (tail : List Char) :
    extractBetween tagContentsOpen tagContentsClose
      (encodeObjectXml
        { Key := some k, LastModified := some t, Size := some n, ETag := some e } ++
        tail) =
      some (objectInnerXml
        { Key := some k, LastModified := some t, Size := some n, ETag := some e },
        tail) := by
  have hechars : ∀ c ∈ e.data, c ≠ '<' := by
    intro c hc
    rw [he] at hc
    rcases List.mem_cons.mp hc with rfl | hc2
    · decide
    · rcases List.mem_append.mp hc2 with h3 | h3
      · exact hml c h3
      · have hq : c = '"' := by simpa using h3
        subst hq; decide
  have hdigT : ∀ c ∈ decimalDigits t, c ≠ '<' :=
    fun c hc => (decimalDigits_char_props hc).2.1
  have hdigN : ∀ c ∈ decimalDigits n, c ≠ '<' :=
    fun c hc => (decimalDigits_char_props hc).2.1
  have hinner_eq : objectInnerXml
      { Key := some k, LastModified := some t, Size := some n, ETag := some e } =
      ((((tagKeyOpen ++ k.data) ++ tagKeyClose) ++
        ((tagLMOpen ++ decimalDigits t) ++ tagLMClose)) ++
        ((tagSizeOpen ++ decimalDigits n) ++ tagSizeClose)) ++
        ((tagETagOpen ++ e.data) ++ tagETagClose) := by
    simp [objectInnerXml, List.append_assoc]
  have hbInner : BlocksPat tagContentsClose
      (objectInnerXml
        { Key := some k, LastModified := some t, Size := some n, ETag := some e }) := by
    rw [hinner_eq]
    exact blocksPat_append
      (blocksPat_append
        (blocksPat_append
          (blocksPat_append
            (blocksPat_append (blocksPat_of_blocksB (by decide))
              (blocksPat_head (by decide) hklt))
            (blocksPat_of_blocksB (by decide)))
          (blocksPat_append
            (blocksPat_append (blocksPat_of_blocksB (by decide))
              (blocksPat_head (by decide) hdigT))
            (blocksPat_of_blocksB (by decide))))
        (blocksPat_append
          (blocksPat_append (blocksPat_of_blocksB (by decide))
            (blocksPat_head (by decide) hdigN))
          (blocksPat_of_blocksB (by decide))))
      (blocksPat_append
        (blocksPat_append (blocksPat_of_blocksB (by decide))
          (blocksPat_head (by decide) hechars))
        (blocksPat_of_blocksB (by decide)))
  rw [show encodeObjectXml
      { Key := some k, LastModified := some t, Size := some n, ETag := some e } ++ tail =
      tagContentsOpen ++ (objectInnerXml
        { Key := some k, LastModified := some t, Size := some n, ETag := some e } ++
        (tagContentsClose ++ tail))
    from by simp [encodeObjectXml, List.append_assoc]]
  exact extractBetween_here _ _ _ _ hbInner

/-- On listings of well-formed entries, the Simple path's regex parse of the
encoded XML recovers exactly the entries the primary path normalises. -/
theorem parse_encode_list (L : List S3Object)
    (hwf : ∀ o ∈ L, wellFormedEntry o = true) (now : Nat) :
    parseS3ListResponse ⟨encodeListXml L⟩ = L.map (toS3File now) := by
  induction L with
  | nil => rfl
  | cons o L' ih =>
    specialize ih (fun o2 h2 => hwf o2 (List.mem_cons_of_mem o h2))
    obtain ⟨k, t, n, e, mid, rfl, hk, hklt, hmne, he, hmq, hml⟩ :=
      wellFormedEntry_elim (hwf _ (List.mem_cons_self _ L'))
    have hstep := extractBetween_encode_object k t n e mid hklt he hml
      (encodeListXml L')
    have hparse := parseContent_inner k t n e mid hk hklt hmne he hmq
    have hetag : removeQuotes e = (⟨mid⟩ : String) := by
      show (⟨e.data.filter (fun c => c != '"')⟩ : String) = (⟨mid⟩ : String)
      rw [he]
      rw [show ('"' :: (mid ++ ['"'])).filter (fun c => c != '"') = mid from by
        rw [List.filter_cons]
        rw [if_neg (by decide)]
        rw [List.filter_append]
        rw [List.filter_eq_self.mpr (fun c hc => by simpa using hmq c hc)]
        simp]
    unfold parseS3ListResponse
    rw [show (⟨encodeListXml
        ({ Key := some k, LastModified := some t, Size := some n,
           ETag := some e } :: L')⟩ : String).data =
        encodeObjectXml
          { Key := some k, LastModified := some t, Size := some n, ETag := some e } ++
          encodeListXml L' from rfl]
    rw [extractContents_step hstep]
    rw [List.filterMap_cons]
    rw [hparse]
    show ({ key := k, lastModified := t, size := n, etag := ⟨mid⟩ } : S3File) ::
        (extractContents (encodeListXml L')).filterMap parseContent =
      toS3File now
          { Key := some k, LastModified := some t, Size := some n, ETag := some e } ::
        L'.map (toS3File now)
    have hfile : ({ key := k, lastModified := t, size := n, etag := ⟨mid⟩ } : S3File) =
        toS3File now
          { Key := some k, LastModified := some t, Size := some n, ETag := some e } := by
      show ({ key := k, lastModified := t, size := n, etag := ⟨mid⟩ } : S3File) =
        { key := k, lastModified := t, size := n, etag := removeQuotes e }
      rw [hetag]
    rw [hfile]
    rw [show (extractContents (encodeListXml L')).filterMap parseContent =
        parseS3ListResponse ⟨encodeListXml L'⟩ from rfl]
    rw [ih]

/-- Claim C8 as amended: on every listing all of whose entries are
well-formed — all four fields present, key non-empty and free of `<`, etag
a quoted non-empty value free of inner `"` and of `<` — the unauthenticated
Simple path applied to the public endpoint's XML encoding of the listing
returns exactly the sequence the primary SDK path returns.  (Entries with a
missing or empty field are dropped by the Simple path's regex parser but
kept with defaults by the primary path, so equivalence fails beyond this
class.) -/
theorem c8_amended_simple_equiv (L : List S3Object)
    (hwf : ∀ o ∈ L, wellFormedEntry o = true) (now : Nat) :
    listPDFFilesSimple ⟨encodeListXml L⟩ = listPDFFilesCore L now := by
  unfold listPDFFilesSimple
  rw [parse_encode_list L hwf now]
  unfold listPDFFilesCore
  rw [List.filter_map]
  congr 1
  congr 1
  apply List.filter_congr
  intro o ho
  obtain ⟨k, t, n, e, mid, rfl, hk, -, -, -, -, -⟩ := wellFormedEntry_elim (hwf o ho)
  show jsEndsWith (jsToLower ((toS3File now
      { Key := some k, LastModified := some t, Size := some n,
        ETag := some e }).key)) ".pdf" =
    pdfKeyTest
      { Key := some k, LastModified := some t, Size := some n, ETag := some e }
  have hbne : (k != "") = true := bne_iff_ne.mpr hk
  simp [toS3File, pdfKeyTest, hbne]

/-- Witness for the amended C8 at a concrete one-entry listing. -/
theorem c8_amended_simple_equiv_witness :
    listPDFFilesSimple
        ⟨encodeListXml
          [{ Key := some "w.pdf", LastModified := some 5, Size := some 7,
             ETag := some "\"x\"" }]⟩ =
      listPDFFilesCore
        [{ Key := some "w.pdf", LastModified := some 5, Size := some 7,
           ETag := some "\"x\"" }] 3 :=
  c8_amended_simple_equiv
    [{ Key := some "w.pdf", LastModified := some 5, Size := some 7,
       ETag := some "\"x\"" }] (by decide) 3
